import Mathlib

/-!
Verification of the trivia-formatting and analyzer-signal core of the
`rome/tools` transformation layer.

The development shallowly embeds the relevant Rust source files:

* `crates/rome_formatter/src/token.rs` — leading/trailing/dangling comment
  formatting and the skipped-token-trivia renderer;
* `crates/rome_analyze/src/signals.rs` — the rule signal protocol, the
  suppression-action generator and the result adapters.

Pure Rust functions become Lean functions; the formatter's `write!` calls are
modelled by accumulating a list of `FormatElement`s. Byte positions are
modelled as character offsets relative to the start of the token's full text
range (the Rust code only ever compares positions within one token, so the
relative choice is exact).
-/

/-- Kind of a comment as classified by the formatter (`CommentKind` in
`rome_formatter`). The language-specific `CommentStyle::get_comment_kind`
lives outside the embedded crates, so a comment trivia piece carries its
classified kind directly. -/
inductive CommentKind where
  | line
  | block
  | inlineBlock
deriving DecidableEq, Repr

def CommentKind.is_line : CommentKind → Bool
  | .line => true
  | _ => false

/-- A trivia piece attached to a token (`rome_rowan` trivia). The `comment`
constructor carries the kind that `CommentStyle::get_comment_kind` would
assign to the piece. Each piece stores its source text. -/
inductive TriviaPiece where
  | whitespace (text : String)
  | newline (text : String)
  | comment (kind : CommentKind) (text : String)
  | skipped (text : String)
deriving DecidableEq, Repr

def TriviaPiece.is_whitespace : TriviaPiece → Bool
  | .whitespace _ => true
  | _ => false

def TriviaPiece.is_newline : TriviaPiece → Bool
  | .newline _ => true
  | _ => false

def TriviaPiece.is_skipped : TriviaPiece → Bool
  | .skipped _ => true
  | _ => false

def TriviaPiece.text : TriviaPiece → String
  | .whitespace t => t
  | .newline t => t
  | .comment _ t => t
  | .skipped t => t

/-- Character length of a trivia piece's text (models the byte length of the
piece's text range). -/
def TriviaPiece.len (p : TriviaPiece) : Nat := p.text.length

/-- A comment extracted for formatting purposes (`SourceComment` in
`rome_formatter`). -/
structure SourceComment where
  kind : CommentKind
  lines_before : Nat
  lines_after : Nat
  text : String
deriving DecidableEq, Repr

/-- The document elements this core emits (the subset of `FormatElement`
reachable from the embedded code: `space()`, `hard_line_break()`,
`empty_line()`, `soft_line_break_or_space()`, a formatted comment,
a verbatim slice, `line_suffix(..)`, `expand_parent()` and
`block_indent(..)`). -/
inductive FormatElement where
  | space
  | hardLineBreak
  | emptyLine
  | softLineBreakOrSpace
  | comment (c : SourceComment)
  | verbatim (text : String)
  | lineSuffix (content : List FormatElement)
  | expandParent
  | blockIndent (content : List FormatElement)
deriving Repr

/-- A syntax token: its leading trivia pieces and its trimmed text. -/
structure SyntaxToken where
  leadingTrivia : List TriviaPiece
  text : String
deriving Repr

/-! ## Leading comments (`FormatLeadingComments::fmt`) -/

/-- Separator written after one leading comment
(`FormatLeadingComments::fmt`, match on `comment.kind()`). -/
def leadingCommentSeparator (c : SourceComment) : List FormatElement :=
  match c.kind with
  | .block | .inlineBlock =>
    match c.lines_after with
    | 0 => [.space]
    | 1 =>
      if c.lines_before == 0 then [.softLineBreakOrSpace]
      else [.hardLineBreak]
    | _ => [.emptyLine]
  | .line =>
    match c.lines_after with
    | 0 | 1 => [.hardLineBreak]
    | _ => [.emptyLine]

/-- `FormatLeadingComments::fmt`: for each leading comment in order, write
the comment itself and then the separator chosen from its kind,
`lines_after` and `lines_before`. -/
def formatLeadingComments (comments : List SourceComment) : List FormatElement :=
  comments.foldl (fun out c => out ++ (.comment c :: leadingCommentSeparator c)) []

/-! ## Trailing comments (`FormatTrailingComments::fmt`) -/

/-- Elements written for one trailing comment given the accumulated
`total_lines_before` (after adding this comment's own `lines_before`). -/
def trailingCommentElements (total_lines_before : Nat) (c : SourceComment) :
    List FormatElement :=
  if total_lines_before > 0 then
    [.lineSuffix
        ((match c.lines_before with
          | 0 | 1 => [.hardLineBreak]
          | _ => [.emptyLine]) ++ [.comment c]),
      .expandParent]
  else
    if c.kind.is_line then
      [.lineSuffix [.space, .comment c], .expandParent]
    else
      [.space, .comment c]

/-- `FormatTrailingComments::fmt`: accumulate `lines_before` across the run
of trailing comments; emit each comment inline while the total is zero and
as a line suffix on its own line afterwards. -/
def formatTrailingComments (comments : List SourceComment) : List FormatElement :=
  (comments.foldl
      (fun (acc : Nat × List FormatElement) c =>
        let total := acc.1 + c.lines_before
        (total, acc.2 ++ trailingCommentElements total c))
      (0, [])).2

/-! ## Dangling comments (`FormatDanglingComments::fmt`) -/

/-- Join a list of formatted comments with hard line breaks
(`f.join_with(hard_line_break())`). -/
def joinWithHardLineBreak (comments : List SourceComment) : List FormatElement :=
  match comments with
  | [] => []
  | c :: rest => .comment c :: rest.foldl (fun out c => out ++ [.hardLineBreak, .comment c]) []

/-- `FormatDanglingComments::fmt` for an explicit comment list. Empty input
produces no output; otherwise the comments are joined with hard line breaks,
optionally wrapped in a block indent preceded by a hard break, and a final
hard break is written when a non-indented run ends in a line comment. -/
def formatDanglingComments (indent : Bool) (comments : List SourceComment) :
    List FormatElement :=
  if comments.isEmpty then []
  else
    let inner :=
      (if indent then [FormatElement.hardLineBreak] else []) ++ joinWithHardLineBreak comments
    if indent then [.blockIndent inner]
    else
      inner ++
        (if (comments.getLast?.map (fun c => c.kind.is_line)).getD false then
          [FormatElement.hardLineBreak]
        else [])

/-! ## Skipped token trivia (`FormatSkippedTokenTrivia::fmt`) -/

/-- `f.comments().has_skipped(token)`: whether the token carries skipped
trivia (the comments map records exactly the tokens with a skipped leading
trivia piece). -/
def SyntaxToken.hasSkipped (t : SyntaxToken) : Bool :=
  t.leadingTrivia.any TriviaPiece.is_skipped

/-- Seed the `lines`/`spaces` counters from the previous token's trailing
trivia, scanned in reverse; scanning stops at the first piece that is
neither whitespace nor a newline. `none` models a token without a previous
token. -/
def seedCounters : Option (List TriviaPiece) → Nat × Nat
  | none => (0, 0)
  | some trailing => go trailing.reverse 0 0
where
  go : List TriviaPiece → Nat → Nat → Nat × Nat
    | [], lines, spaces => (lines, spaces)
    | p :: rest, lines, spaces =>
      if p.is_whitespace then go rest lines (spaces + 1)
      else if p.is_newline then go rest (lines + 1) 0
      else (lines, spaces)

/-- State threaded through the leading-trivia scan of
`FormatSkippedTokenTrivia::fmt`: the `lines`/`spaces` counters, the buffered
dangling comments, the covered skipped range (as a start/end offset pair),
the elements written so far, and the offset of the next piece. -/
structure SkipState where
  lines : Nat
  spaces : Nat
  dangling : List SourceComment
  skippedRange : Option (Nat × Nat)
  out : List FormatElement
  offset : Nat
deriving Repr

/-- Separator written when the first skipped range is opened
(the `None` arm of the `match skipped_range`). -/
def skippedSeparator (danglingEmpty : Bool) (lines spaces : Nat) :
    List FormatElement :=
  if danglingEmpty then
    if lines = 0 then
      if spaces = 0 then [] else [.space]
    else [.hardLineBreak]
  else
    if lines = 0 then [.space]
    else if lines = 1 then [.hardLineBreak]
    else [.emptyLine]

/-- One iteration of the `for piece in self.token.leading_trivia().pieces()`
loop of `FormatSkippedTokenTrivia::fmt`. -/
def skipStep (st : SkipState) (p : TriviaPiece) : SkipState :=
  let offset' := st.offset + p.len
  match p with
  | .whitespace _ => { st with spaces := st.spaces + 1, offset := offset' }
  | .newline _ => { st with lines := st.lines + 1, spaces := 0, offset := offset' }
  | .comment kind text =>
    { st with
      dangling := st.dangling ++
        [{ kind := kind, lines_before := st.lines, lines_after := 0, text := text }]
      lines := 0
      spaces := 0
      offset := offset' }
  | .skipped _ =>
    match st.skippedRange with
    | some range =>
      { st with
        skippedRange := some (min range.1 st.offset, max range.2 offset')
        lines := 0
        spaces := 0
        dangling := []
        offset := offset' }
    | none =>
      { st with
        skippedRange := some (st.offset, offset')
        out := st.out ++ skippedSeparator st.dangling.isEmpty st.lines st.spaces
        lines := 0
        spaces := 0
        dangling := []
        offset := offset' }

/-- Slice the characters `[a, b)` out of a string (models
`syntax_token_text_slice` restricted to a text range). -/
def sliceText (s : String) (a b : Nat) : String :=
  String.mk ((s.toList.drop a).take (b - a))

/-- The token's full source text: leading trivia followed by the trimmed
token text (offsets are relative to the token's text range start). -/
def SyntaxToken.fullText (t : SyntaxToken) : String :=
  String.join (t.leadingTrivia.map TriviaPiece.text) ++ t.text

/-- Separator and dangling comments written after the verbatim element
(the tail of `FormatSkippedTokenTrivia::fmt`). -/
def skippedTrailing (dangling : List SourceComment) (lines spaces : Nat) :
    List FormatElement :=
  match dangling with
  | [] =>
    if lines = 0 then
      if spaces == 0 then [] else [.space]
    else [.hardLineBreak]
  | first :: _ =>
    (if first.lines_before = 0 then [FormatElement.space]
     else if first.lines_before = 1 then [FormatElement.hardLineBreak]
     else [FormatElement.emptyLine]) ++
    formatDanglingComments false dangling ++
    (if lines = 0 then [FormatElement.space]
     else [FormatElement.hardLineBreak])

/-- `FormatSkippedTokenTrivia::fmt`: if the token has skipped trivia, seed
the counters from the previous token's trailing trivia, scan the leading
trivia collecting dangling comments and the covered skipped range, emit the
separator due before the skipped range, the covered range verbatim, and the
trailing separator and remaining dangling comments. `prevTrailing` is the
previous token's trailing trivia (`self.token.prev_token()`). -/
def formatSkippedTokenTrivia (prevTrailing : Option (List TriviaPiece))
    (token : SyntaxToken) : List FormatElement :=
  if ¬ token.hasSkipped then []
  else
    let seed := seedCounters prevTrailing
    let st := token.leadingTrivia.foldl skipStep
      { lines := seed.1, spaces := seed.2, dangling := [], skippedRange := none
        out := [], offset := 0 }
    let range := st.skippedRange.getD (0, 0)
    let verbatim := FormatElement.verbatim (sliceText token.fullText range.1 range.2)
    st.out ++ [verbatim] ++ skippedTrailing st.dangling st.lines st.spaces

/-! ## Syntax tree (the `rome_rowan` surface used by `signals.rs`) -/

/-- A syntax node: an ordered list of children, each a node or a token. -/
inductive SyntaxNode where
  | mk (children : List (SyntaxNode ⊕ SyntaxToken))

/-- `SyntaxNode::first_token`: descend along first children to the first
token; a node whose first child is an empty subtree has no first token. -/
def SyntaxNode.firstToken : SyntaxNode → Option SyntaxToken
  | .mk [] => none
  | .mk (.inl n :: _) => n.firstToken
  | .mk (.inr t :: _) => some t

/-- The child node of `n` at index `i`, when that child is a node. -/
def SyntaxNode.childNode? (n : SyntaxNode) (i : Nat) : Option SyntaxNode :=
  match n with
  | .mk cs =>
    match cs.get? i with
    | some (.inl c) => some c
    | _ => none

/-- Resolve a path of child indices from `root` to a descendant node. -/
def SyntaxNode.resolve : SyntaxNode → List Nat → Option SyntaxNode
  | n, [] => some n
  | n, i :: p => (n.childNode? i).bind fun c => SyntaxNode.resolve c p

/-- `SyntaxNode::ancestors` of the node addressed by `path` inside `root`:
the node itself first, then its parents, ending with `root`. -/
def SyntaxNode.ancestors (root : SyntaxNode) (path : List Nat) : List SyntaxNode :=
  ((List.range (path.length + 1)).filterMap fun k => root.resolve (path.take k)).reverse

/-! ## Analyzer signals (`rome_analyze/src/signals.rs`) -/

inductive ActionCategory where
  | quickFix
  | refactor
deriving DecidableEq, Repr

inductive Applicability where
  | always
  | maybeIncorrect
  | unspecified
deriving DecidableEq, Repr

/-- `SyntaxToken::with_leading_trivia`: the same token with its leading
trivia replaced by the given pieces. -/
def SyntaxToken.with_leading_trivia (t : SyntaxToken) (trivia : List TriviaPiece) :
    SyntaxToken :=
  { t with leadingTrivia := trivia }

/-- A batch-mutation operation recorded against the original tree; the
suppression generator uses only `replace_token_discard_trivia`. -/
inductive MutationOp where
  | replaceTokenDiscardTrivia (old new : SyntaxToken)

/-- `BatchMutation`: the ordered list of recorded operations. -/
structure BatchMutation where
  ops : List MutationOp

/-- `AnalyzerAction`: a code action with the rule metadata injected by the
analyzer. -/
structure AnalyzerAction where
  group_name : String
  rule_name : String
  file_id : Nat
  category : ActionCategory
  applicability : Applicability
  message : String
  mutation : BatchMutation

/-- `AnalyzerActionIter`: the action iterator returned by a signal, built
from a file id and the action list (single-pass with exact length). -/
structure AnalyzerActionIter where
  file_id : Nat
  actions : List AnalyzerAction

/-- `ExactSizeIterator::len` for `AnalyzerActionIter`. -/
def AnalyzerActionIter.len (iter : AnalyzerActionIter) : Nat :=
  iter.actions.length

/-- What a rule's `action` hook returned for this match
(`RuleAction`: category, applicability, message, mutation). -/
structure RuleAction where
  category : ActionCategory
  applicability : Applicability
  message : String
  mutation : BatchMutation

/-- `AnalyzerDiagnostic`: a rule diagnostic tagged with the file id
(`into_analyzer_diagnostic`). -/
structure AnalyzerDiagnostic where
  file_id : Nat
  message : String
deriving DecidableEq, Repr

/-- `RuleSignal`: one rule's match. The rule hooks (`R::diagnostic`,
`R::action`, `R::can_suppress`) and `RuleContext::new` live outside the
embedded file, so the signal captures their outcomes for this match:
`ctxOk` is whether `RuleContext::new` succeeds, `ruleDiagnostic` and
`ruleAction` are the hook results, and `canSuppressPath` addresses (as a
child-index path into `root`) the node `R::can_suppress` returned. -/
structure RuleSignal where
  groupName : String
  ruleName : String
  fileId : Nat
  root : SyntaxNode
  ctxOk : Bool
  ruleDiagnostic : Option String
  ruleAction : Option RuleAction
  canSuppressPath : Option (List Nat)

/-- `RuleSignal::diagnostic`: build the context (`.ok()?`), then tag the
rule's diagnostic with the file id. -/
def RuleSignal.diagnostic (s : RuleSignal) : Option AnalyzerDiagnostic :=
  if ¬ s.ctxOk then none
  else s.ruleDiagnostic.map fun m => { file_id := s.fileId, message := m }

/-- The `suppression_node` computation in `RuleSignal::action`: walk the
reported node's ancestors (nearest first) for one whose first token has a
leading newline; fall back to the root. -/
def RuleSignal.suppressionNode (s : RuleSignal) : Option SyntaxNode :=
  s.canSuppressPath.bind fun path =>
    let ancestor := (SyntaxNode.ancestors s.root path).find? fun node =>
      ((node.firstToken).map fun token =>
        token.leadingTrivia.any TriviaPiece.is_newline).getD false
    if ancestor.isSome then ancestor else some s.root

/-- The `suppression_action` computation in `RuleSignal::action`: resolve
the anchor's first token, build the `// rome-ignore ...` comment, replace
the token's leading trivia with newline/comment/newline in a fresh batch
mutation. -/
def RuleSignal.suppressionAction (s : RuleSignal) : Option AnalyzerAction :=
  s.suppressionNode.bind fun suppression_node =>
    let first_token := suppression_node.firstToken
    let rule := "lint(" ++ s.groupName ++ "/" ++ s.ruleName ++ ")"
    let mes := "// rome-ignore " ++ rule ++ ": suppressed"
    first_token.bind fun first_token =>
      let trivia := [TriviaPiece.newline "\n",
                     TriviaPiece.comment .line mes,
                     TriviaPiece.newline "\n"]
      let new_token := first_token.with_leading_trivia trivia
      some { group_name := s.groupName
             rule_name := s.ruleName
             file_id := s.fileId
             category := ActionCategory.quickFix
             applicability := Applicability.always
             mutation := { ops := [MutationOp.replaceTokenDiscardTrivia first_token new_token] }
             message := "Suppress rule " ++ rule }

/-- The `if let Some(action) = R::action(..)` prefix of the action list:
the rule's own fix wrapped into an `AnalyzerAction`. -/
def RuleSignal.fixActions (s : RuleSignal) : List AnalyzerAction :=
  match s.ruleAction with
  | some action =>
    [{ group_name := s.groupName
       rule_name := s.ruleName
       file_id := s.fileId
       category := action.category
       applicability := action.applicability
       mutation := action.mutation
       message := action.message }]
  | none => []

/-- `RuleSignal::action`: build the context (`.ok()?`), push the rule's fix
if any, then push the suppression action if any, and return the iterator. -/
def RuleSignal.action (s : RuleSignal) : Option AnalyzerActionIter :=
  if ¬ s.ctxOk then none
  else
    let actions := s.fixActions
    let actions :=
      match s.suppressionAction with
      | some suppression_action => actions ++ [suppression_action]
      | none => actions
    some { file_id := s.fileId, actions := actions }

/-! ## Result adapters -/

/-- A byte range in the file (start, end). `TextRange::default()` is
`(0, 0)`. -/
abbrev TextRange := Nat × Nat

/-- One literal text replacement produced by
`BatchMutation::as_text_edits`. -/
structure TextEdit where
  range : TextRange
  insert : String
deriving DecidableEq, Repr

/-- `CodeSuggestionAdvice`: the diagnostic-advice shape of an action. -/
structure CodeSuggestionAdvice where
  applicability : Applicability
  msg : String
  suggestion : List TextEdit
deriving DecidableEq, Repr

/-- `FileSpan`: a file id plus a byte range. -/
structure FileSpan where
  file : Nat
  range : TextRange
deriving DecidableEq, Repr

/-- `CodeSuggestion`: an independently applicable fix record. -/
structure CodeSuggestion where
  span : FileSpan
  applicability : Applicability
  msg : String
  suggestion : List TextEdit
  labels : List String
deriving DecidableEq, Repr

/-- `CodeSuggestionItem`: a code suggestion with its category and rule. -/
structure CodeSuggestionItem where
  category : ActionCategory
  suggestion : CodeSuggestion
  rule_name : String
deriving DecidableEq, Repr

/-- `CodeSuggestionAdviceIter`: map each action to an advice record.
`asTextEdits` is `BatchMutation::as_text_edits` (implemented in
`rome_rowan`, outside the embedded files), passed as a parameter; a `none`
result models a mutation that cannot be converted to text edits, and
`unwrap_or_default` substitutes the empty range and empty edit list. -/
def AnalyzerActionIter.intoCodeSuggestionAdvices
    (asTextEdits : BatchMutation → Option (TextRange × List TextEdit))
    (iter : AnalyzerActionIter) : List CodeSuggestionAdvice :=
  iter.actions.map fun action =>
    let edits := (asTextEdits action.mutation).getD ((0, 0), [])
    { applicability := action.applicability
      msg := action.message
      suggestion := edits.2 }

/-- `CodeSuggestionIter`: map each action to a flat code-suggestion record,
with the same `unwrap_or_default` on the text-edit computation. -/
def AnalyzerActionIter.intoCodeSuggestions
    (asTextEdits : BatchMutation → Option (TextRange × List TextEdit))
    (iter : AnalyzerActionIter) : List CodeSuggestionItem :=
  iter.actions.map fun action =>
    let edits := (asTextEdits action.mutation).getD ((0, 0), [])
    { rule_name := action.rule_name
      category := action.category
      suggestion :=
        { span := { file := iter.file_id, range := edits.1 }
          applicability := action.applicability
          msg := action.message
          suggestion := edits.2
          labels := [] } }

/-! ## Shared concrete inputs for witnesses and counterexamples -/

/-- A token starting a fresh source line (leading newline trivia). -/
def sampleToken : SyntaxToken := { leadingTrivia := [.newline "\n"], text := "x" }

/-- A fix returned by a rule's `action` hook. -/
def sampleFix : RuleAction :=
  { category := ActionCategory.refactor
    applicability := Applicability.maybeIncorrect
    message := "fix it"
    mutation := { ops := [] } }

/-- A rule match of rule `myGroup/myRule` on file 7 whose context builds,
with a fix and a suppressible node (the root, which starts a line). -/
def sampleSignal : RuleSignal :=
  { groupName := "myGroup"
    ruleName := "myRule"
    fileId := 7
    root := .mk [.inr sampleToken]
    ctxOk := true
    ruleDiagnostic := some "diag"
    ruleAction := some sampleFix
    canSuppressPath := some [] }

/-- The suppression action the analyzer generates for `sampleSignal`. -/
def sampleSuppression : AnalyzerAction :=
  { group_name := "myGroup"
    rule_name := "myRule"
    file_id := 7
    category := ActionCategory.quickFix
    applicability := Applicability.always
    mutation := { ops := [MutationOp.replaceTokenDiscardTrivia sampleToken
      { sampleToken with leadingTrivia :=
          [TriviaPiece.newline "\n",
           TriviaPiece.comment CommentKind.line
             "// rome-ignore lint(myGroup/myRule): suppressed",
           TriviaPiece.newline "\n"] }] }
    message := "Suppress rule lint(myGroup/myRule)" }

/-! ## Claim theorems: signals -/

/-- C3: if building the rule's evaluation context fails, `diagnostic()`
returns `none` and `action()` returns `none`; the failure is not surfaced
as an error (both return types have no error channel). -/
theorem ruleSignal_ctx_failure_silent (s : RuleSignal) (h : s.ctxOk = false) :
    s.diagnostic = none ∧ s.action = none := by
  refine ⟨?_, ?_⟩ <;> simp [RuleSignal.diagnostic, RuleSignal.action, h]

theorem ruleSignal_ctx_failure_silent_witness :
    ({ sampleSignal with ctxOk := false } : RuleSignal).diagnostic = none ∧
      ({ sampleSignal with ctxOk := false } : RuleSignal).action = none :=
  ruleSignal_ctx_failure_silent { sampleSignal with ctxOk := false } rfl

/-- C4: when the rule produces a fix and a suppression action is generated,
the returned action list is exactly the wrapped fix followed by the
suppression action — the fix strictly first. -/
theorem ruleSignal_fix_precedes_suppression (s : RuleSignal) (a : RuleAction)
    (supp : AnalyzerAction) (h1 : s.ctxOk = true) (h2 : s.ruleAction = some a)
    (h3 : s.suppressionAction = some supp) :
    s.action = some
      { file_id := s.fileId
        actions := [{ group_name := s.groupName
                      rule_name := s.ruleName
                      file_id := s.fileId
                      category := a.category
                      applicability := a.applicability
                      mutation := a.mutation
                      message := a.message },
                    supp] } := by
  simp [RuleSignal.action, RuleSignal.fixActions, h1, h2, h3]

theorem ruleSignal_fix_precedes_suppression_witness :
    sampleSignal.action = some
      { file_id := 7
        actions := [{ group_name := "myGroup"
                      rule_name := "myRule"
                      file_id := 7
                      category := ActionCategory.refactor
                      applicability := Applicability.maybeIncorrect
                      mutation := { ops := [] }
                      message := "fix it" },
                    sampleSuppression] } :=
  ruleSignal_fix_precedes_suppression sampleSignal sampleFix sampleSuppression
    rfl rfl rfl

/-- C5: when the chosen suppression anchor has no resolvable first token,
no suppression action is produced, no error is raised (`action()` still
returns a list), and the wrapped primary fix (if any) is the whole list,
unchanged. -/
theorem ruleSignal_missing_anchor_token (s : RuleSignal) (n : SyntaxNode)
    (h1 : s.ctxOk = true) (h2 : s.suppressionNode = some n)
    (h3 : n.firstToken = none) :
    s.suppressionAction = none ∧
    s.action = some { file_id := s.fileId, actions := s.fixActions } ∧
    ∀ a, s.ruleAction = some a →
      s.fixActions = [{ group_name := s.groupName
                        rule_name := s.ruleName
                        file_id := s.fileId
                        category := a.category
                        applicability := a.applicability
                        mutation := a.mutation
                        message := a.message }] := by
  have hsupp : s.suppressionAction = none := by
    simp [RuleSignal.suppressionAction, h2, h3]
  refine ⟨hsupp, ?_, ?_⟩
  · simp [RuleSignal.action, h1, hsupp]
  · intro a ha
    simp [RuleSignal.fixActions, ha]

theorem ruleSignal_missing_anchor_token_witness :
    ({ sampleSignal with root := .mk [] } : RuleSignal).suppressionAction = none ∧
    ({ sampleSignal with root := .mk [] } : RuleSignal).action =
      some { file_id := 7
             actions := ({ sampleSignal with root := .mk [] } : RuleSignal).fixActions } ∧
    ∀ a, ({ sampleSignal with root := .mk [] } : RuleSignal).ruleAction = some a →
      ({ sampleSignal with root := .mk [] } : RuleSignal).fixActions =
        [{ group_name := "myGroup"
           rule_name := "myRule"
           file_id := 7
           category := a.category
           applicability := a.applicability
           mutation := a.mutation
           message := a.message }] :=
  ruleSignal_missing_anchor_token { sampleSignal with root := .mk [] }
    (.mk []) rfl rfl rfl

/-- C10: whenever the context builds, `action()` returns an iterator; with
no fix and no suppressible node that iterator has exact length 0; `action()`
is `none` only when context construction fails. -/
theorem ruleSignal_action_present_when_ctx_ok (s : RuleSignal) :
    (s.ctxOk = true → ∃ iter, s.action = some iter) ∧
    (s.ctxOk = true → s.ruleAction = none → s.canSuppressPath = none →
      s.action = some { file_id := s.fileId, actions := [] } ∧
      ∀ iter, s.action = some iter → iter.len = 0) ∧
    (s.action = none → s.ctxOk = false) := by
  refine ⟨?_, ?_, ?_⟩
  · intro h
    cases hsupp : s.suppressionAction with
    | none =>
      exact ⟨{ file_id := s.fileId, actions := s.fixActions },
        by simp [RuleSignal.action, h, hsupp]⟩
    | some sa =>
      exact ⟨{ file_id := s.fileId, actions := s.fixActions ++ [sa] },
        by simp [RuleSignal.action, h, hsupp]⟩
  · intro h hfix hpath
    have hsupp : s.suppressionAction = none := by
      simp [RuleSignal.suppressionAction, RuleSignal.suppressionNode, hpath]
    have hact : s.action = some { file_id := s.fileId, actions := [] } := by
      simp [RuleSignal.action, RuleSignal.fixActions, h, hfix, hsupp]
    refine ⟨hact, ?_⟩
    intro iter hiter
    rw [hact] at hiter
    cases hiter
    rfl
  · intro h
    by_contra hne
    have hok : s.ctxOk = true := by
      cases hc : s.ctxOk
      · exact absurd hc hne
      · rfl
    have : s.action ≠ none := by
      cases hsupp : s.suppressionAction <;>
        simp [RuleSignal.action, hok, hsupp]
    exact this h

theorem ruleSignal_action_present_when_ctx_ok_witness :
    ({ sampleSignal with ruleAction := none, canSuppressPath := none } : RuleSignal).action =
      some { file_id := 7, actions := [] } :=
  (((ruleSignal_action_present_when_ctx_ok
      { sampleSignal with ruleAction := none, canSuppressPath := none }).2.1)
    rfl rfl rfl).1

/-- C1 (amended): the suppression action's single mutation operation
replaces the anchor's first token by the same token whose leading trivia is
exactly newline, the comment `// rome-ignore lint({group}/{rule}):
suppressed`, newline — the comment on its own line immediately before the
token. -/
theorem suppression_action_comment_literal (s : RuleSignal) (n : SyntaxNode)
    (ft : SyntaxToken) (h1 : s.suppressionNode = some n)
    (h2 : n.firstToken = some ft) :
    s.suppressionAction = some
      { group_name := s.groupName
        rule_name := s.ruleName
        file_id := s.fileId
        category := ActionCategory.quickFix
        applicability := Applicability.always
        mutation := { ops := [MutationOp.replaceTokenDiscardTrivia ft
          { ft with leadingTrivia :=
              [TriviaPiece.newline "\n",
               TriviaPiece.comment CommentKind.line
                 ("// rome-ignore " ++
                   ("lint(" ++ s.groupName ++ "/" ++ s.ruleName ++ ")") ++
                   ": suppressed"),
               TriviaPiece.newline "\n"] }] }
        message := "Suppress rule " ++
          ("lint(" ++ s.groupName ++ "/" ++ s.ruleName ++ ")") } := by
  simp [RuleSignal.suppressionAction, h1, h2, SyntaxToken.with_leading_trivia]

theorem suppression_action_comment_literal_witness :
    sampleSignal.suppressionAction = some sampleSuppression :=
  suppression_action_comment_literal sampleSignal (.mk [.inr sampleToken])
    sampleToken rfl rfl

/-- C1 (counterexample): for the concrete match of rule `myGroup/myRule`,
the comment inserted by the suppression action is
`// rome-ignore lint(myGroup/myRule): suppressed`, which differs from the
claimed literal `// rule-ignore myGroup/myRule: suppressed`. -/
theorem suppression_comment_literal_counterexample :
    (sampleSignal.suppressionAction.map fun a => a.mutation.ops) =
      some [MutationOp.replaceTokenDiscardTrivia sampleToken
        { sampleToken with leadingTrivia :=
            [TriviaPiece.newline "\n",
             TriviaPiece.comment CommentKind.line
               "// rome-ignore lint(myGroup/myRule): suppressed",
             TriviaPiece.newline "\n"] }] ∧
    "// rome-ignore lint(myGroup/myRule): suppressed" ≠
      "// rule-ignore myGroup/myRule: suppressed" :=
  ⟨rfl, by decide⟩

/-! ## Claim theorems: leading and trailing comments -/

/-- Shared helper: a left fold that appends `g c` per element produces the
accumulator followed by the flat map of `g`. -/
theorem foldl_append_flatMap {α β : Type} (g : α → List β) (l : List α)
    (acc : List β) :
    l.foldl (fun out c => out ++ g c) acc = acc ++ l.flatMap g := by
  induction l generalizing acc with
  | nil => simp
  | cons c rest ih => simp [ih, List.append_assoc]

/-- The separator table stated by claim C6 for a leading comment, written
from the claim's words (for comparison with the code's
`formatLeadingComments`): block/inline-block comments get a space for
`lines_after = 0`, a soft line break (when `lines_before = 0`) or hard line
break (otherwise) for `lines_after = 1`, and a blank line for
`lines_after ≥ 2`; line comments get a hard line break for `lines_after`
0 or 1 and a blank line for `lines_after ≥ 2`. -/
def claimedLeadingSeparator (kind : CommentKind) (lines_after lines_before : Nat) :
    List FormatElement :=
  match kind with
  | .block | .inlineBlock =>
    if lines_after = 0 then [.space]
    else if lines_after = 1 then
      if lines_before = 0 then [.softLineBreakOrSpace] else [.hardLineBreak]
    else [.emptyLine]
  | .line =>
    if lines_after ≤ 1 then [.hardLineBreak] else [.emptyLine]

/-- Shared helper: the code's per-comment separator agrees with the claimed
table, which reads only the comment's kind, `lines_after` and
`lines_before`. -/
theorem leadingCommentSeparator_eq_claimed (c : SourceComment) :
    leadingCommentSeparator c =
      claimedLeadingSeparator c.kind c.lines_after c.lines_before := by
  obtain ⟨k, lb, la, t⟩ := c
  rcases k <;> rcases la with _ | _ | la <;> rcases lb with _ | lb <;>
    simp [leadingCommentSeparator, claimedLeadingSeparator]

/-- C6: the output of the leading-comment formatter is each comment
followed by the separator given by the claimed table — a function of the
comment's kind, `lines_after` and `lines_before` only, independent of its
content. -/
theorem leading_comment_separator_table (comments : List SourceComment) :
    formatLeadingComments comments =
      comments.flatMap fun c =>
        FormatElement.comment c ::
          claimedLeadingSeparator c.kind c.lines_after c.lines_before := by
  unfold formatLeadingComments
  rw [foldl_append_flatMap]
  simp only [List.nil_append]
  exact List.flatMap_congr fun c _ => by
    rw [leadingCommentSeparator_eq_claimed]

/-- The per-comment trailing elements stated by claim C7, written from the
claim's words: while the running total of `lines_before` is zero the
comment is attached inline after a space (a line comment as a line suffix
that forces the group to break); once the total is positive the comment
goes on its own line, the separator chosen by its own `lines_before`
(0 or 1 gives a hard break, 2 or more a blank line). -/
def claimedTrailingElement (total : Nat) (c : SourceComment) :
    List FormatElement :=
  if total = 0 then
    if c.kind.is_line then
      [FormatElement.lineSuffix [.space, .comment c], .expandParent]
    else
      [.space, .comment c]
  else
    [FormatElement.lineSuffix
        ((if c.lines_before ≤ 1 then [FormatElement.hardLineBreak]
          else [FormatElement.emptyLine]) ++ [.comment c]),
      .expandParent]

/-- The trailing-comment run behavior stated by claim C7: accumulate
`lines_before` (the current comment included) and emit each comment's
elements from the claimed per-comment table. -/
def claimedTrailingComments (comments : List SourceComment) : List FormatElement :=
  go 0 comments
where
  go (total : Nat) : List SourceComment → List FormatElement
    | [] => []
    | c :: rest =>
      claimedTrailingElement (total + c.lines_before) c ++
        go (total + c.lines_before) rest

/-- Shared helper: the code's per-comment trailing elements agree with the
claimed table. -/
theorem trailingCommentElements_eq_claimed (total : Nat) (c : SourceComment) :
    trailingCommentElements total c = claimedTrailingElement total c := by
  rcases total with _ | total
  · simp [trailingCommentElements, claimedTrailingElement]
  · obtain ⟨k, lb, la, t⟩ := c
    rcases lb with _ | _ | lb <;>
      simp [trailingCommentElements, claimedTrailingElement]

/-- Shared helper: unrolling the trailing-comment fold against the claimed
recursion. -/
theorem foldl_trailing_eq_claimed (l : List SourceComment) (total : Nat)
    (acc : List FormatElement) :
    (l.foldl
        (fun (acc : Nat × List FormatElement) c =>
          (acc.1 + c.lines_before,
            acc.2 ++ trailingCommentElements (acc.1 + c.lines_before) c))
        (total, acc)).2 =
      acc ++ claimedTrailingComments.go total l := by
  induction l generalizing total acc with
  | nil => simp [claimedTrailingComments.go]
  | cons c rest ih =>
    simp only [List.foldl]
    rw [ih, claimedTrailingComments.go, trailingCommentElements_eq_claimed,
      List.append_assoc]

/-- C7: the trailing-comment formatter accumulates `lines_before` across
the run exactly as the claim states, and in the concrete two-comment
scenario (first `lines_before = 0`, second `lines_before = 1`) the first
comment renders inline after a space and the second on its own line after
a hard break. -/
theorem trailing_comments_accumulate_lines_before :
    (∀ comments : List SourceComment,
      formatTrailingComments comments = claimedTrailingComments comments) ∧
    formatTrailingComments
        [⟨CommentKind.block, 0, 0, "/* a */"⟩, ⟨CommentKind.line, 1, 0, "// b"⟩] =
      [.space, .comment ⟨CommentKind.block, 0, 0, "/* a */"⟩,
        .lineSuffix [.hardLineBreak, .comment ⟨CommentKind.line, 1, 0, "// b"⟩],
        .expandParent] := by
  constructor
  · intro comments
    show (comments.foldl
        (fun (acc : Nat × List FormatElement) c =>
          (acc.1 + c.lines_before,
            acc.2 ++ trailingCommentElements (acc.1 + c.lines_before) c))
        (0, [])).2 = claimedTrailingComments comments
    rw [foldl_trailing_eq_claimed]
    rfl
  · rfl

/-! ## Claim theorems: result adapters -/

/-- C8: when the text-edit computation fails for an action's mutation, both
adapters still yield a record for that action (lengths are preserved)
carrying its applicability and message, with an empty edit set (and the
default empty range) substituted. -/
theorem adapters_substitute_empty_edits
    (asTextEdits : BatchMutation → Option (TextRange × List TextEdit))
    (iter : AnalyzerActionIter) (i : Nat) (hi : i < iter.actions.length)
    (hfail : asTextEdits (iter.actions[i]).mutation = none) :
    (iter.intoCodeSuggestionAdvices asTextEdits).length = iter.actions.length ∧
    (iter.intoCodeSuggestions asTextEdits).length = iter.actions.length ∧
    (iter.intoCodeSuggestionAdvices asTextEdits)[i]? = some
      { applicability := (iter.actions[i]).applicability
        msg := (iter.actions[i]).message
        suggestion := [] } ∧
    (iter.intoCodeSuggestions asTextEdits)[i]? = some
      { category := (iter.actions[i]).category
        rule_name := (iter.actions[i]).rule_name
        suggestion := { span := { file := iter.file_id, range := (0, 0) }
                        applicability := (iter.actions[i]).applicability
                        msg := (iter.actions[i]).message
                        suggestion := []
                        labels := [] } } := by
  refine ⟨by simp [AnalyzerActionIter.intoCodeSuggestionAdvices],
          by simp [AnalyzerActionIter.intoCodeSuggestions], ?_, ?_⟩
  · simp [AnalyzerActionIter.intoCodeSuggestionAdvices, List.getElem?_map,
      List.getElem?_eq_getElem hi, hfail]
  · simp [AnalyzerActionIter.intoCodeSuggestions, List.getElem?_map,
      List.getElem?_eq_getElem hi, hfail]

theorem adapters_substitute_empty_edits_witness :
    (AnalyzerActionIter.intoCodeSuggestionAdvices (fun _ => none)
        { file_id := 3, actions := [sampleSuppression] })[0]? = some
      { applicability := Applicability.always
        msg := "Suppress rule lint(myGroup/myRule)"
        suggestion := [] } :=
  (adapters_substitute_empty_edits (fun _ => none)
    { file_id := 3, actions := [sampleSuppression] } 0 (by decide) rfl).2.2.1

/-! ## Claim theorems: skipped-trivia renderer, concrete scenario B -/

/-- The scenario B token: leading trivia newline, newline, line comment
`// a`, skipped text `garbage`, one space, line comment `// b`. -/
def scenarioBToken : SyntaxToken :=
  { leadingTrivia := [.newline "\n", .newline "\n",
                      .comment CommentKind.line "// a",
                      .skipped "garbage", .whitespace " ",
                      .comment CommentKind.line "// b"]
    text := "t" }

/-- C2 (counterexample): on the scenario B token the renderer emits a
single space as the separator before the skipped span — buffering `// a`
reset the line counter to 0 — and no blank line appears anywhere in the
output, contradicting the claimed blank-line separator. -/
theorem skipped_scenario_counterexample :
    formatSkippedTokenTrivia none scenarioBToken =
      [.space, .verbatim "garbage", .space,
        .comment ⟨CommentKind.line, 0, 0, "// b"⟩, .hardLineBreak, .space] ∧
    FormatElement.emptyLine ∉ formatSkippedTokenTrivia none scenarioBToken := by
  have h : formatSkippedTokenTrivia none scenarioBToken =
      [.space, .verbatim "garbage", .space,
        .comment ⟨CommentKind.line, 0, 0, "// b"⟩, .hardLineBreak, .space] := rfl
  refine ⟨h, ?_⟩
  rw [h]
  simp

/-- C2 (amended): on the scenario B token, comment `// a` is buffered as a
dangling comment with `lines_before = 2` when the skipped piece is reached
(and discarded there), the separator emitted before the skipped span is a
single space, the skipped range text `garbage` is rendered verbatim, and
`// b` is a trailing dangling comment with `lines_before = 0` separated by
a single space (followed by the hard break a trailing line comment forces
and the final single-space separator). -/
theorem skipped_scenario_amended :
    ((scenarioBToken.leadingTrivia.take 3).foldl skipStep
        { lines := 0, spaces := 0, dangling := [], skippedRange := none
          out := [], offset := 0 }).dangling =
      [⟨CommentKind.line, 2, 0, "// a"⟩] ∧
    formatSkippedTokenTrivia none scenarioBToken =
      [.space, .verbatim "garbage", .space,
        .comment ⟨CommentKind.line, 0, 0, "// b"⟩, .hardLineBreak, .space] :=
  ⟨rfl, rfl⟩

/-! ## Claim theorems: comments around skipped trivia (general) -/

/-- The texts of the comment elements of an output sequence (the skipped
renderer writes comments only at the top level). -/
def commentTexts (l : List FormatElement) : List String :=
  l.filterMap fun e =>
    match e with
    | .comment c => some c.text
    | _ => none

/-- The texts of the verbatim elements of an output sequence. -/
def verbatimTexts (l : List FormatElement) : List String :=
  l.filterMap fun e =>
    match e with
    | .verbatim t => some t
    | _ => none

/-- The texts of the comment pieces of a trivia list. -/
def pieceCommentTexts (l : List TriviaPiece) : List String :=
  l.filterMap fun p =>
    match p with
    | .comment _ t => some t
    | _ => none

/-- Total text length of a trivia list. -/
def lenSum (l : List TriviaPiece) : Nat := (l.map TriviaPiece.len).sum

/-- Whitespace-separator elements (the only elements the leading-trivia
scan itself ever writes). -/
def isSeparator : FormatElement → Bool
  | .space => true
  | .hardLineBreak => true
  | .emptyLine => true
  | _ => false

/-- End offset of the last skipped piece of a trivia list starting at
`off`, when one exists. -/
def lastSkippedEnd : List TriviaPiece → Nat → Option Nat
  | [], _ => none
  | p :: rest, off =>
    match lastSkippedEnd rest (off + p.len) with
    | some e => some e
    | none => if p.is_skipped then some (off + p.len) else none

theorem commentTexts_append (a b : List FormatElement) :
    commentTexts (a ++ b) = commentTexts a ++ commentTexts b := by
  simp [commentTexts]

theorem verbatimTexts_append (a b : List FormatElement) :
    verbatimTexts (a ++ b) = verbatimTexts a ++ verbatimTexts b := by
  simp [verbatimTexts]

theorem commentTexts_of_separators (l : List FormatElement)
    (h : ∀ e ∈ l, isSeparator e = true) : commentTexts l = [] := by
  induction l with
  | nil => rfl
  | cons e rest ih =>
    have he := h e (List.mem_cons_self e rest)
    have hrest := ih fun x hx => h x (List.mem_cons_of_mem e hx)
    cases e <;> simp [commentTexts] at hrest ⊢ <;>
      first
        | exact hrest
        | exact absurd he (by simp [isSeparator])

theorem verbatimTexts_of_separators (l : List FormatElement)
    (h : ∀ e ∈ l, isSeparator e = true) : verbatimTexts l = [] := by
  induction l with
  | nil => rfl
  | cons e rest ih =>
    have he := h e (List.mem_cons_self e rest)
    have hrest := ih fun x hx => h x (List.mem_cons_of_mem e hx)
    cases e <;> simp [verbatimTexts] at hrest ⊢ <;>
      first
        | exact hrest
        | exact absurd he (by simp [isSeparator])

theorem skippedSeparator_isSeparator (b : Bool) (lines spaces : Nat) :
    ∀ e ∈ skippedSeparator b lines spaces, isSeparator e = true := by
  intro e he
  cases b <;> rcases lines with _ | _ | lines <;>
      rcases spaces with _ | spaces <;>
      simp [skippedSeparator] at he <;>
    subst he <;> rfl

/-- Shared helper: every scan step advances the offset by the piece's
length. -/
theorem foldl_skipStep_offset (l : List TriviaPiece) (st : SkipState) :
    (l.foldl skipStep st).offset = st.offset + lenSum l := by
  induction l generalizing st with
  | nil => simp [lenSum]
  | cons p rest ih =>
    have hstep : (skipStep st p).offset = st.offset + p.len := by
      cases p with
      | whitespace t => rfl
      | newline t => rfl
      | comment k t => rfl
      | skipped t => cases h : st.skippedRange <;> simp [skipStep, h]
    simp only [List.foldl, ih, hstep, lenSum, List.map_cons, List.sum_cons]
    omega

/-- Shared helper: the leading-trivia scan itself writes only whitespace
separator elements. -/
theorem foldl_skipStep_out (l : List TriviaPiece) (st : SkipState) :
    ∃ sep, (l.foldl skipStep st).out = st.out ++ sep ∧
      ∀ e ∈ sep, isSeparator e = true := by
  induction l generalizing st with
  | nil => exact ⟨[], by simp, by simp⟩
  | cons p rest ih =>
    have hstep : ∃ sep1, (skipStep st p).out = st.out ++ sep1 ∧
        ∀ e ∈ sep1, isSeparator e = true := by
      cases p with
      | whitespace t => exact ⟨[], by simp [skipStep], by simp⟩
      | newline t => exact ⟨[], by simp [skipStep], by simp⟩
      | comment k t => exact ⟨[], by simp [skipStep], by simp⟩
      | skipped t =>
        cases h : st.skippedRange with
        | some r => exact ⟨[], by simp [skipStep, h], by simp⟩
        | none =>
          exact ⟨skippedSeparator st.dangling.isEmpty st.lines st.spaces,
            by simp [skipStep, h], skippedSeparator_isSeparator _ _ _⟩
    obtain ⟨sep1, hout1, hsep1⟩ := hstep
    obtain ⟨sep2, hout2, hsep2⟩ := ih (skipStep st p)
    refine ⟨sep1 ++ sep2, ?_, ?_⟩
    · simp only [List.foldl] at hout2 ⊢
      rw [hout2, hout1, List.append_assoc]
    · intro e he
      rcases List.mem_append.mp he with h | h
      · exact hsep1 e h
      · exact hsep2 e h

/-- Shared helper: a trivia segment with no skipped pieces leaves the
written output and the covered range untouched and appends its comments'
texts to the dangling buffer. -/
theorem foldl_skipStep_no_skipped (l : List TriviaPiece) (st : SkipState)
    (h : ∀ p ∈ l, p.is_skipped = false) :
    (l.foldl skipStep st).out = st.out ∧
    (l.foldl skipStep st).skippedRange = st.skippedRange ∧
    (l.foldl skipStep st).dangling.map SourceComment.text =
      st.dangling.map SourceComment.text ++ pieceCommentTexts l := by
  induction l generalizing st with
  | nil => simp [pieceCommentTexts]
  | cons p rest ih =>
    have hp := h p (List.mem_cons_self p rest)
    have hrest : ∀ q ∈ rest, q.is_skipped = false :=
      fun q hq => h q (List.mem_cons_of_mem p hq)
    cases p with
    | whitespace t =>
      obtain ⟨h1, h2, h3⟩ := ih (skipStep st (.whitespace t)) hrest
      simp only [List.foldl]
      rw [h1, h2, h3]
      simp [skipStep, pieceCommentTexts]
    | newline t =>
      obtain ⟨h1, h2, h3⟩ := ih (skipStep st (.newline t)) hrest
      simp only [List.foldl]
      rw [h1, h2, h3]
      simp [skipStep, pieceCommentTexts]
    | comment k t =>
      obtain ⟨h1, h2, h3⟩ := ih (skipStep st (.comment k t)) hrest
      simp only [List.foldl]
      rw [h1, h2, h3]
      simp [skipStep, pieceCommentTexts]
    | skipped t =>
      exact absurd hp (by simp [TriviaPiece.is_skipped])

/-- Shared helper: a trivia list with no skipped pieces has no last skipped
end offset. -/
theorem lastSkippedEnd_of_no_skipped (l : List TriviaPiece) (off : Nat)
    (h : ∀ p ∈ l, p.is_skipped = false) : lastSkippedEnd l off = none := by
  induction l generalizing off with
  | nil => rfl
  | cons p rest ih =>
    have hp := h p (List.mem_cons_self p rest)
    rw [lastSkippedEnd, ih _ fun q hq => h q (List.mem_cons_of_mem p hq)]
    simp [hp]

/-- Shared helper: the last skipped end offset of `mid ++ skipped s :: l₂`
when `l₂` has no skipped pieces. -/
theorem lastSkippedEnd_append_skipped (mid l₂ : List TriviaPiece) (s : String)
    (off : Nat) (h₂ : ∀ p ∈ l₂, p.is_skipped = false) :
    lastSkippedEnd (mid ++ TriviaPiece.skipped s :: l₂) off =
      some (off + lenSum mid + s.length) := by
  induction mid generalizing off with
  | nil =>
    rw [List.nil_append, lastSkippedEnd,
      lastSkippedEnd_of_no_skipped l₂ _ h₂]
    simp [TriviaPiece.is_skipped, TriviaPiece.len, TriviaPiece.text, lenSum]
  | cons p rest ih =>
    rw [List.cons_append, lastSkippedEnd, ih (off + p.len)]
    simp only [Option.some.injEq, lenSum, List.map_cons, List.sum_cons]
    omega

/-- Shared helper: once a covered range is open, further scanning keeps its
start and extends its end to the last skipped piece's end (offsets only
grow, so `cover` keeps the left end). -/
theorem foldl_skipStep_range_some (l : List TriviaPiece) (st : SkipState)
    (a b : Nat) (hr : st.skippedRange = some (a, b)) (ha : a ≤ st.offset)
    (hb : b ≤ st.offset) :
    (l.foldl skipStep st).skippedRange =
      some (a, (lastSkippedEnd l st.offset).getD b) := by
  induction l generalizing st b with
  | nil => simp [hr, lastSkippedEnd]
  | cons p rest ih =>
    simp only [List.foldl]
    cases p with
    | whitespace t =>
      rw [ih (skipStep st (.whitespace t)) b (by simp [skipStep, hr])
          (by simp [skipStep]; omega) (by simp [skipStep]; omega)]
      rw [lastSkippedEnd]
      cases h : lastSkippedEnd rest (st.offset + (TriviaPiece.whitespace t).len) with
      | some e => simp [skipStep, h]
      | none => simp [skipStep, h, TriviaPiece.is_skipped]
    | newline t =>
      rw [ih (skipStep st (.newline t)) b (by simp [skipStep, hr])
          (by simp [skipStep]; omega) (by simp [skipStep]; omega)]
      rw [lastSkippedEnd]
      cases h : lastSkippedEnd rest (st.offset + (TriviaPiece.newline t).len) with
      | some e => simp [skipStep, h]
      | none => simp [skipStep, h, TriviaPiece.is_skipped]
    | comment k t =>
      rw [ih (skipStep st (.comment k t)) b (by simp [skipStep, hr])
          (by simp [skipStep]; omega) (by simp [skipStep]; omega)]
      rw [lastSkippedEnd]
      cases h : lastSkippedEnd rest (st.offset + (TriviaPiece.comment k t).len) with
      | some e => simp [skipStep, h]
      | none => simp [skipStep, h, TriviaPiece.is_skipped]
    | skipped t =>
      have hnew : (skipStep st (.skipped t)).skippedRange =
          some (a, st.offset + (TriviaPiece.skipped t).len) := by
        simp only [skipStep, hr]
        rw [Nat.min_eq_left ha,
          Nat.max_eq_right (hb.trans (Nat.le_add_right _ _))]
      rw [ih (skipStep st (.skipped t)) (st.offset + (TriviaPiece.skipped t).len)
          hnew (by simp [skipStep, hr]; omega) (by simp [skipStep, hr])]
      rw [lastSkippedEnd]
      cases h : lastSkippedEnd rest (st.offset + (TriviaPiece.skipped t).len) with
      | some e => simp [skipStep, hr, h]
      | none => simp [skipStep, hr, h, TriviaPiece.is_skipped]

/-- Shared helper: two decompositions of one list around a distinguished
element `x` satisfying `P`, the second around the first `P`-element,
coincide or nest. -/
theorem split_at_first_marked {α : Type} (P : α → Bool) :
    ∀ (l₁' l₁ l₂ l₂' : List α) (x x' : α),
      l₁ ++ x :: l₂ = l₁' ++ x' :: l₂' →
      (∀ a ∈ l₁', P a = false) → P x = true →
      (l₁ = l₁' ∧ x = x' ∧ l₂ = l₂') ∨
        ∃ mid, l₁ = l₁' ++ x' :: mid ∧ l₂' = mid ++ x :: l₂ := by
  intro l₁'
  induction l₁' with
  | nil =>
    intro l₁ l₂ l₂' x x' heq hfirst hx
    cases l₁ with
    | nil =>
      simp only [List.nil_append] at heq
      obtain ⟨h1, h2⟩ := List.cons.inj heq
      exact Or.inl ⟨rfl, h1, h2⟩
    | cons h t =>
      simp only [List.nil_append, List.cons_append] at heq
      obtain ⟨h1, h2⟩ := List.cons.inj heq
      exact Or.inr ⟨t, by rw [h1, List.nil_append], h2.symm⟩
  | cons h' t' ih =>
    intro l₁ l₂ l₂' x x' heq hfirst hx
    cases l₁ with
    | nil =>
      simp only [List.nil_append, List.cons_append] at heq
      obtain ⟨h1, _⟩ := List.cons.inj heq
      have : P h' = false := hfirst h' (List.mem_cons_self h' t')
      rw [← h1, hx] at this
      exact absurd this (by simp)
    | cons h t =>
      simp only [List.cons_append] at heq
      obtain ⟨h1, h2⟩ := List.cons.inj heq
      have hfirst' : ∀ a ∈ t', P a = false :=
        fun a ha => hfirst a (List.mem_cons_of_mem h' ha)
      rcases ih t l₂ l₂' x x' h2 hfirst' hx with ⟨e1, e2, e3⟩ | ⟨mid, m1, m2⟩
      · exact Or.inl ⟨by rw [h1, e1], e2, e3⟩
      · exact Or.inr ⟨mid, by rw [h1, m1, List.cons_append], m2⟩

theorem commentTexts_flatMap_hard (rest : List SourceComment) :
    commentTexts (rest.flatMap fun c =>
        [FormatElement.hardLineBreak, FormatElement.comment c]) =
      rest.map SourceComment.text := by
  induction rest with
  | nil => rfl
  | cons c r ih =>
    rw [List.flatMap_cons, commentTexts_append, ih]
    rfl

theorem commentTexts_joinWithHardLineBreak (cs : List SourceComment) :
    commentTexts (joinWithHardLineBreak cs) = cs.map SourceComment.text := by
  cases cs with
  | nil => rfl
  | cons c rest =>
    rw [joinWithHardLineBreak]
    have : (rest.foldl (fun out c =>
        out ++ [FormatElement.hardLineBreak, FormatElement.comment c]) []) =
        rest.flatMap fun c =>
          [FormatElement.hardLineBreak, FormatElement.comment c] := by
      rw [foldl_append_flatMap]
      rfl
    rw [this, show (FormatElement.comment c ::
        (rest.flatMap fun c =>
          [FormatElement.hardLineBreak, FormatElement.comment c])) =
        [FormatElement.comment c] ++
          rest.flatMap fun c =>
            [FormatElement.hardLineBreak, FormatElement.comment c] from rfl,
      commentTexts_append, commentTexts_flatMap_hard]
    rfl

theorem verbatimTexts_flatMap_hard (rest : List SourceComment) :
    verbatimTexts (rest.flatMap fun c =>
        [FormatElement.hardLineBreak, FormatElement.comment c]) = [] := by
  induction rest with
  | nil => rfl
  | cons c r ih =>
    rw [List.flatMap_cons, verbatimTexts_append, ih]
    rfl

theorem verbatimTexts_joinWithHardLineBreak (cs : List SourceComment) :
    verbatimTexts (joinWithHardLineBreak cs) = [] := by
  cases cs with
  | nil => rfl
  | cons c rest =>
    rw [joinWithHardLineBreak]
    have : (rest.foldl (fun out c =>
        out ++ [FormatElement.hardLineBreak, FormatElement.comment c]) []) =
        rest.flatMap fun c =>
          [FormatElement.hardLineBreak, FormatElement.comment c] := by
      rw [foldl_append_flatMap]
      rfl
    rw [this, show (FormatElement.comment c ::
        (rest.flatMap fun c =>
          [FormatElement.hardLineBreak, FormatElement.comment c])) =
        [FormatElement.comment c] ++
          rest.flatMap fun c =>
            [FormatElement.hardLineBreak, FormatElement.comment c] from rfl,
      verbatimTexts_append, verbatimTexts_flatMap_hard]
    rfl

theorem commentTexts_formatDanglingComments (cs : List SourceComment) :
    commentTexts (formatDanglingComments false cs) =
      cs.map SourceComment.text := by
  cases cs with
  | nil => rfl
  | cons c rest =>
    rw [formatDanglingComments]
    simp only [List.isEmpty_cons, Bool.false_eq_true, if_false,
      List.nil_append]
    rw [commentTexts_append, commentTexts_joinWithHardLineBreak]
    split <;> simp [commentTexts]

theorem verbatimTexts_formatDanglingComments (cs : List SourceComment) :
    verbatimTexts (formatDanglingComments false cs) = [] := by
  cases cs with
  | nil => rfl
  | cons c rest =>
    rw [formatDanglingComments]
    simp only [List.isEmpty_cons, Bool.false_eq_true, if_false,
      List.nil_append]
    rw [verbatimTexts_append, verbatimTexts_joinWithHardLineBreak]
    split <;> simp [verbatimTexts]

/-- Shared helper: the trailing part after the verbatim element renders
exactly the buffered dangling comments. -/
theorem commentTexts_skippedTrailing (dangling : List SourceComment)
    (lines spaces : Nat) :
    commentTexts (skippedTrailing dangling lines spaces) =
      dangling.map SourceComment.text := by
  cases dangling with
  | nil =>
    rcases lines with _ | l <;> rcases h : (spaces == 0) <;>
      simp [skippedTrailing, commentTexts, h]
  | cons c rest =>
    obtain ⟨k, lb, la, tx⟩ := c
    rw [skippedTrailing, commentTexts_append, commentTexts_append,
      commentTexts_formatDanglingComments]
    rcases lb with _ | _ | lb <;> rcases lines with _ | l <;>
      simp [commentTexts]

/-- Shared helper: the trailing part contains no verbatim element. -/
theorem verbatimTexts_skippedTrailing (dangling : List SourceComment)
    (lines spaces : Nat) :
    verbatimTexts (skippedTrailing dangling lines spaces) = [] := by
  cases dangling with
  | nil =>
    rcases lines with _ | l <;> rcases h : (spaces == 0) <;>
      simp [skippedTrailing, verbatimTexts, h]
  | cons c rest =>
    obtain ⟨k, lb, la, tx⟩ := c
    rw [skippedTrailing, verbatimTexts_append, verbatimTexts_append,
      verbatimTexts_formatDanglingComments]
    rcases lb with _ | _ | lb <;> rcases lines with _ | l <;>
      simp [verbatimTexts]

/-- Shared helper: processing a skipped piece always clears the dangling
comment buffer. -/
theorem skipStep_skipped_dangling (st : SkipState) (t : String) :
    (skipStep st (.skipped t)).dangling = [] := by
  cases h : st.skippedRange <;> simp [skipStep, h]

/-- Shared helper: total length distributes over list append. -/
theorem lenSum_append (a b : List TriviaPiece) :
    lenSum (a ++ b) = lenSum a + lenSum b := by
  simp [lenSum]

/-- C9: decompose a token's leading trivia at its last skipped piece
(`l₁ ++ skipped s :: l₂`, no skipped in `l₂`) and at its first skipped
piece (`l₁' ++ skipped s' :: l₂'`, no skipped in `l₁'`). The renderer's
comment elements are exactly the comments occurring after the last skipped
piece, and the single verbatim element is the slice from the first skipped
piece's start to the last skipped piece's end. Hence a comment before the
first skipped piece is never emitted as a comment — it only influenced the
separator choice before being discarded — and its text lies before the
verbatim range, so it can reappear only when it sits between the first and
last skipped pieces, inside the merged verbatim slice. -/
theorem skipped_renderer_comments_only_after_last_skipped
    (prevTrailing : Option (List TriviaPiece)) (token : SyntaxToken)
    (l₁ l₂ l₁' l₂' : List TriviaPiece) (s s' : String)
    (hLast : token.leadingTrivia = l₁ ++ TriviaPiece.skipped s :: l₂)
    (h₂ : ∀ p ∈ l₂, p.is_skipped = false)
    (hFirst : token.leadingTrivia = l₁' ++ TriviaPiece.skipped s' :: l₂')
    (h₁ : ∀ p ∈ l₁', p.is_skipped = false) :
    commentTexts (formatSkippedTokenTrivia prevTrailing token) =
      pieceCommentTexts l₂ ∧
    verbatimTexts (formatSkippedTokenTrivia prevTrailing token) =
      [sliceText token.fullText (lenSum l₁') (lenSum l₁ + s.length)] := by
  have hskip : token.hasSkipped = true := by
    rw [SyntaxToken.hasSkipped, hLast]
    simp [TriviaPiece.is_skipped]
  have hfmt : formatSkippedTokenTrivia prevTrailing token =
      (token.leadingTrivia.foldl skipStep
          { lines := (seedCounters prevTrailing).1
            spaces := (seedCounters prevTrailing).2
            dangling := [], skippedRange := none
            out := [], offset := 0 }).out ++
        [FormatElement.verbatim (sliceText token.fullText
          (((token.leadingTrivia.foldl skipStep
              { lines := (seedCounters prevTrailing).1
                spaces := (seedCounters prevTrailing).2
                dangling := [], skippedRange := none
                out := [], offset := 0 }).skippedRange.getD (0, 0)).1)
          (((token.leadingTrivia.foldl skipStep
              { lines := (seedCounters prevTrailing).1
                spaces := (seedCounters prevTrailing).2
                dangling := [], skippedRange := none
                out := [], offset := 0 }).skippedRange.getD (0, 0)).2))] ++
        skippedTrailing
          (token.leadingTrivia.foldl skipStep
            { lines := (seedCounters prevTrailing).1
              spaces := (seedCounters prevTrailing).2
              dangling := [], skippedRange := none
              out := [], offset := 0 }).dangling
          (token.leadingTrivia.foldl skipStep
            { lines := (seedCounters prevTrailing).1
              spaces := (seedCounters prevTrailing).2
              dangling := [], skippedRange := none
              out := [], offset := 0 }).lines
          (token.leadingTrivia.foldl skipStep
            { lines := (seedCounters prevTrailing).1
              spaces := (seedCounters prevTrailing).2
              dangling := [], skippedRange := none
              out := [], offset := 0 }).spaces := by
    rw [formatSkippedTokenTrivia, if_neg fun hn => hn hskip]
  generalize hst0 :
    ({ lines := (seedCounters prevTrailing).1
       spaces := (seedCounters prevTrailing).2
       dangling := [], skippedRange := none
       out := [], offset := 0 } : SkipState) = st0 at hfmt
  have hst0out : st0.out = [] := by rw [← hst0]
  have hst0range : st0.skippedRange = none := by rw [← hst0]
  have hst0dangling : st0.dangling = [] := by rw [← hst0]
  have hst0offset : st0.offset = 0 := by rw [← hst0]
  -- final state of the scan
  generalize hstF : token.leadingTrivia.foldl skipStep st0 = stF at hfmt
  -- the scan writes no comments and no verbatim elements
  obtain ⟨sep, hsepOut, hsepAll⟩ := foldl_skipStep_out token.leadingTrivia st0
  rw [hstF] at hsepOut
  have houtComments : commentTexts stF.out = [] := by
    rw [hsepOut, hst0out, List.nil_append]
    exact commentTexts_of_separators sep hsepAll
  have houtVerbatims : verbatimTexts stF.out = [] := by
    rw [hsepOut, hst0out, List.nil_append]
    exact verbatimTexts_of_separators sep hsepAll
  -- dangling buffer at the end: the comments after the last skipped piece
  have hdangling : stF.dangling.map SourceComment.text = pieceCommentTexts l₂ := by
    have hchain : stF = l₂.foldl skipStep
        (skipStep (l₁.foldl skipStep st0) (.skipped s)) := by
      rw [← hstF, hLast, List.foldl_append, List.foldl_cons]
    obtain ⟨_, _, h3⟩ := foldl_skipStep_no_skipped l₂
      (skipStep (l₁.foldl skipStep st0) (.skipped s)) h₂
    rw [hchain, h3, skipStep_skipped_dangling]
    simp
  -- covered range: from the first skipped start to the last skipped end
  have hst1 :
      (l₁'.foldl skipStep st0).skippedRange = none ∧
      (l₁'.foldl skipStep st0).offset = lenSum l₁' := by
    obtain ⟨_, h2, _⟩ := foldl_skipStep_no_skipped l₁' st0 h₁
    refine ⟨by rw [h2, hst0range], ?_⟩
    rw [foldl_skipStep_offset, hst0offset, Nat.zero_add]
  have hst2range : (skipStep (l₁'.foldl skipStep st0)
      (.skipped s')).skippedRange = some (lenSum l₁', lenSum l₁' + s'.length) := by
    simp [skipStep, hst1.1, hst1.2, TriviaPiece.len, TriviaPiece.text]
  have hst2offset : (skipStep (l₁'.foldl skipStep st0)
      (.skipped s')).offset = lenSum l₁' + s'.length := by
    simp [skipStep, hst1.1, hst1.2, TriviaPiece.len, TriviaPiece.text]
  have hrange : stF.skippedRange = some (lenSum l₁', lenSum l₁ + s.length) := by
    have hchain : stF = l₂'.foldl skipStep
        (skipStep (l₁'.foldl skipStep st0) (.skipped s')) := by
      rw [← hstF, hFirst, List.foldl_append, List.foldl_cons]
    rw [hchain, foldl_skipStep_range_some _ _ (lenSum l₁') (lenSum l₁' + s'.length)
      hst2range (by rw [hst2offset]; omega) (by rw [hst2offset])]
    rw [hst2offset]
    have heq : l₁ ++ TriviaPiece.skipped s :: l₂ =
        l₁' ++ TriviaPiece.skipped s' :: l₂' := by rw [← hLast, ← hFirst]
    rcases split_at_first_marked TriviaPiece.is_skipped l₁' l₁ l₂ l₂'
        (TriviaPiece.skipped s) (TriviaPiece.skipped s') heq h₁ rfl with
      ⟨e1, e2, e3⟩ | ⟨mid, m1, m2⟩
    · have hs : s = s' := by injection e2
      rw [← e3, lastSkippedEnd_of_no_skipped l₂ _ h₂]
      rw [e1, hs]
      rfl
    · rw [m2, lastSkippedEnd_append_skipped mid l₂ s _ h₂]
      have hlen : lenSum l₁ = lenSum l₁' + s'.length + lenSum mid := by
        rw [m1, lenSum_append]
        simp only [lenSum, List.map_cons, List.sum_cons, TriviaPiece.len,
          TriviaPiece.text]
        omega
      simp only [Option.getD_some, Option.some.injEq, Prod.mk.injEq, true_and]
      omega
  constructor
  · rw [hfmt, commentTexts_append, commentTexts_append, houtComments,
      commentTexts_skippedTrailing, hdangling]
    rfl
  · rw [hfmt, verbatimTexts_append, verbatimTexts_append, houtVerbatims,
      verbatimTexts_skippedTrailing, hrange]
    rfl

theorem skipped_renderer_comments_only_after_last_skipped_witness :
    commentTexts (formatSkippedTokenTrivia none scenarioBToken) = ["// b"] ∧
    verbatimTexts (formatSkippedTokenTrivia none scenarioBToken) = ["garbage"] :=
  skipped_renderer_comments_only_after_last_skipped none scenarioBToken
    [.newline "\n", .newline "\n", .comment CommentKind.line "// a"]
    [.whitespace " ", .comment CommentKind.line "// b"]
    [.newline "\n", .newline "\n", .comment CommentKind.line "// a"]
    [.whitespace " ", .comment CommentKind.line "// b"]
    "garbage" "garbage" rfl (by decide) rfl (by decide)
